import Mathlib

/- Shallow embedding of the basis data-block core: schema casting
   (src/dags/core/typing/casting.py), CSV null handling (src/basis/utils/data.py),
   stored-data-block realization (src/dags/core/data_block.py and
   src/basis/core/conversion/init), identifier generation
   (src/snapflow/core/metadata/orm.py), and the immutability listener that
   src/dags/core/data_block.py registers on every metadata row update. -/

set_option linter.unusedVariables false

/- ------------------------------------------------------------------ -/
/- Schema model and casting: src/dags/core/typing/casting.py           -/
/- ------------------------------------------------------------------ -/

structure SchemaField where
  name : String
  field_type : String
deriving DecidableEq, Repr

structure ObjectSchema where
  schema_name : String
  fields : List SchemaField
deriving DecidableEq, Repr

def field_names (s : ObjectSchema) : List String :=
  s.fields.map (fun f => f.name)

/- ObjectSchema.get_field raises NameError when the name is absent; the
   embedding returns an Option, and callers that catch NameError match none. -/
def get_field (s : ObjectSchema) (name : String) : Option SchemaField :=
  s.fields.find? (fun f => f.name == name)

/- Python ft.split takes the text before the first opening paren; for a one
   character separator that is exactly the takeWhile prefix. -/
def fieldtype_class (ft : String) : String :=
  String.mk (ft.data.takeWhile (fun c => c != '('))

def is_same_fieldtype_class (ft1 ft2 : String) : Bool :=
  fieldtype_class ft1 == fieldtype_class ft2

def is_strict_field_match (f1 f2 : SchemaField) : Bool :=
  is_same_fieldtype_class f1.field_type f2.field_type && f1.name == f2.name

/- Python compares set(field_names) on both sides; a double containment
   check over the two lists has the same meaning. -/
def same_field_name_set (s1 s2 : ObjectSchema) : Bool :=
  (field_names s1).all (fun n => (field_names s2).contains n) &&
  (field_names s2).all (fun n => (field_names s1).contains n)

def is_strict_schema_match (schema1 schema2 : ObjectSchema) : Bool :=
  same_field_name_set schema1 schema2 &&
  schema1.fields.all (fun f1 =>
    match get_field schema2 f1.name with
    | some f2 => is_strict_field_match f1 f2
    | none => false)

def has_subset_fields (sub supr : ObjectSchema) : Bool :=
  (field_names sub).all (fun n => (field_names supr).contains n)

/- The Python version round-trips through asdict/from_dict, which preserves
   every attribute except the replaced fields list. -/
def update_matching_field_definitions (schema update_with_schema : ObjectSchema) :
    ObjectSchema :=
  { schema with fields := schema.fields.map (fun f =>
      match get_field update_with_schema f.name with
      | some new_f => new_f
      | none => f) }

inductive CastToSchemaLevel where
  | NONE
  | SOFT
  | HARD
deriving DecidableEq, Repr

def CastToSchemaLevel.value : CastToSchemaLevel → Nat
  | CastToSchemaLevel.NONE => 0
  | CastToSchemaLevel.SOFT => 1
  | CastToSchemaLevel.HARD => 2

/- The raised SchemaTypeError message lists the inferred columns, the nominal
   columns and the cast level; the error value carries the same payload. -/
inductive SchemaTypeError where
  | missing_columns (inferred_columns nominal_columns : List String)
      (level : CastToSchemaLevel)
deriving DecidableEq, Repr

def cast_to_realized_schema (inferred_schema nominal_schema : ObjectSchema)
    (cast_level : CastToSchemaLevel) : Except SchemaTypeError ObjectSchema :=
  if is_strict_schema_match inferred_schema nominal_schema then
    Except.ok nominal_schema
  else if has_subset_fields nominal_schema inferred_schema then
    if cast_level.value < CastToSchemaLevel.HARD.value then
      Except.ok (update_matching_field_definitions inferred_schema nominal_schema)
    else
      Except.ok nominal_schema
  else
    if CastToSchemaLevel.NONE.value ≤ cast_level.value then
      Except.error (SchemaTypeError.missing_columns
        (field_names inferred_schema) (field_names nominal_schema) cast_level)
    else
      Except.ok inferred_schema

/- ------------------------------------------------------------------ -/
/- CSV null handling: src/basis/utils/data.py                          -/
/- ------------------------------------------------------------------ -/

/- Python values reaching is_nullish, restricted to the shapes the claims
   need: None, strings, integer scalars, and list containers. -/
inductive PyVal where
  | vnone
  | vstr (s : String)
  | vint (n : Int)
  | vlist (xs : List String)
deriving DecidableEq, Repr

def null_strings : List String := ["None", "null", "na", ""]

/- Python str.lower, on the ASCII range the code works over. -/
def pyLower (s : String) : String := String.mk (s.data.map Char.toLower)

/- Python str.startswith. -/
def str_startswith (s pre : String) : Bool := pre.data.isPrefixOf s.data

/- Control flow of is_nullish: None is nullish; a string is nullish exactly
   when its lowercase form is in null_strings (a non-matching string then
   falls into the Iterable branch and returns False); any other Iterable is
   never nullish; pandas isnull on an integer scalar is False. -/
def is_nullish (o : PyVal) : Bool :=
  match o with
  | PyVal.vnone => true
  | PyVal.vstr s => null_strings.contains (pyLower s)
  | PyVal.vlist _ => false
  | PyVal.vint _ => false

def process_csv_value (v : PyVal) : PyVal :=
  if is_nullish v then PyVal.vnone else v

/- read_csv after the csv module has already split the physical lines: the
   header row plus data rows arrive as lists of raw cell strings; Python zip
   truncates to the shorter list exactly like List.zip. -/
def read_csv (headers : List String) (lines : List (List String)) :
    List (List (String × PyVal)) :=
  lines.map (fun line =>
    (headers.zip line).map (fun hv => (hv.1, process_csv_value (PyVal.vstr hv.2))))

/- ------------------------------------------------------------------ -/
/- Immutable metadata rows: listener registered in data_block.py       -/
/- ------------------------------------------------------------------ -/

structure DataBlockRow where
  id : String
  expected_schema_key : Option String
  realized_schema_key : Option String
  record_count : Option Int
  deleted : Bool
deriving DecidableEq, Repr

inductive ImmutabilityViolation where
  | attempted_update (id : String)
deriving DecidableEq, Repr

/-- Modelled from the spec: the body of immutability_update_listener lives in
dags/core/metadata/listeners.py, which is not under src; data_block.py only
registers it for every before-update event on DataBlockMetadata and
StoredDataBlockMetadata rows. Per the spec, any attempted post-creation
mutation of a persisted row is rejected at the persistence boundary with
ImmutabilityViolation and the stored rows are left untouched. The store is
the set of persisted rows; submitting an update for a persisted row id fails
and returns no modified store, and a submit can never produce a store that
differs from its input. -/
def submit_row_update (store : List DataBlockRow) (row_id : String)
    (mutate : DataBlockRow → DataBlockRow) :
    Except ImmutabilityViolation (List DataBlockRow) :=
  if store.any (fun r => r.id == row_id) then
    Except.error (ImmutabilityViolation.attempted_update row_id)
  else
    Except.ok store

/- ------------------------------------------------------------------ -/
/- Storage, formats and conversion paths                               -/
/- ------------------------------------------------------------------ -/

inductive StorageType where
  | dictMemory
  | relationalDatabase
  | flatFile
deriving DecidableEq, Repr

inductive DataFormat where
  | recordsList
  | dataFrame
  | databaseTableRef
  | databaseCursor
  | delimitedFile
deriving DecidableEq, Repr

structure StorageFormat where
  storage_type : StorageType
  data_format : DataFormat
deriving DecidableEq, Repr

structure Storage where
  url : String
  storage_type : StorageType
deriving DecidableEq, Repr

/-- Modelled from the spec: Storage.from_url lives in the storage module that
is not under src; a storage URL identifies its engine by scheme, and the code
under src itself distinguishes memory storages by the memory: scheme test. -/
def storage_type_of_url (url : String) : StorageType :=
  if str_startswith url "memory:" then StorageType.dictMemory
  else if str_startswith url "file:" then StorageType.flatFile
  else StorageType.relationalDatabase

structure StoredDataBlockRec where
  id : String
  data_block_id : String
  storage_url : String
  data_format : DataFormat
deriving DecidableEq, Repr

/- StoredDataBlockMetadata.get_storage_format: the pair of the storage engine
   type of the URL and the stored data format. -/
def get_storage_format (sdb : StoredDataBlockRec) : StorageFormat :=
  { storage_type := storage_type_of_url sdb.storage_url,
    data_format := sdb.data_format }

structure ExecutionContext where
  local_memory_storage : Storage
  storages : List Storage
deriving DecidableEq, Repr

/-- Modelled from the spec: all_storages is a property of the execution
context defined outside src; the spec describes it as the set of configured
Storage descriptors available to the context. -/
def ExecutionContext.all_storages (ctx : ExecutionContext) : List Storage :=
  ctx.storages ++ [ctx.local_memory_storage]

structure ConversionEdge where
  source_format : StorageFormat
  target_format : StorageFormat
  cost : Nat
deriving DecidableEq, Repr

/-- Modelled from the spec: ConversionPath is declared in the converter module
that is not under src; it is an ordered sequence of conversion edges whose
total cost is the sum of the edge costs, and the empty path has cost zero. -/
structure ConversionPath where
  conversions : List ConversionEdge
deriving DecidableEq, Repr

def ConversionPath.total_cost (p : ConversionPath) : Nat :=
  (p.conversions.map (fun e => e.cost)).sum

/- The converter registry search get_lowest_cost_path (declared outside src)
   is abstracted as a lookup function from source and target storage format
   to an optional path; the available storages are already folded in. -/
abbrev PathLookup := StorageFormat → StorageFormat → Option ConversionPath

/- get_conversion_path_for_sdb from src/basis/core/conversion: an identical
   source and target storage format short-circuits to the empty path before
   the registry is consulted. -/
def get_conversion_path_for_sdb (lookup : PathLookup) (sdb : StoredDataBlockRec)
    (target_format : StorageFormat) : Option ConversionPath :=
  let source_format := get_storage_format sdb
  if source_format = target_format then
    some { conversions := [] }
  else
    lookup source_format target_format

/- ------------------------------------------------------------------ -/
/- DataBlockManager.get_or_create_local_stored_data_block              -/
/- ------------------------------------------------------------------ -/

/- The metadata query in data_block.py: rows of the data block, keeping a
   memory-storage row only when its URL is the local memory storage URL.
   The source then also builds a second filter restricting storage_url to
   ctx.all_storages but discards the returned query object (the result of
   existing_sdbs.filter is never assigned), so that restriction has no
   effect and is faithfully absent here. -/
def visible_sdbs (ctx : ExecutionContext) (store : List StoredDataBlockRec)
    (data_block_id : String) : List StoredDataBlockRec :=
  store.filter (fun sdb =>
    sdb.data_block_id == data_block_id &&
    (!(str_startswith sdb.storage_url "memory:") ||
      sdb.storage_url == ctx.local_memory_storage.url))

inductive ScanResult where
  | exact (sdb : StoredDataBlockRec)
  | completed (candidates : List (Nat × ConversionPath × StoredDataBlockRec))
deriving DecidableEq, Repr

/- The loop over existing stored blocks: return the first block whose storage
   format already equals the target, otherwise accumulate every candidate
   triple of total cost, path and source block in discovery order. -/
def scan_sdbs (lookup : PathLookup) (target : StorageFormat) :
    List StoredDataBlockRec → List (Nat × ConversionPath × StoredDataBlockRec) →
    ScanResult
  | [], acc => ScanResult.completed acc
  | sdb :: rest, acc =>
    if get_storage_format sdb = target then ScanResult.exact sdb
    else
      match get_conversion_path_for_sdb lookup sdb target with
      | some p => scan_sdbs lookup target rest (acc ++ [(p.total_cost, p, sdb)])
      | none => scan_sdbs lookup target rest acc

/- Python min with key on the first component keeps the first element whose
   key is minimal: a later element replaces the best only when strictly
   smaller. -/
def min_by_cost (l : List (Nat × ConversionPath × StoredDataBlockRec)) :
    Option (Nat × ConversionPath × StoredDataBlockRec) :=
  match l with
  | [] => none
  | x :: xs => some (xs.foldl (fun best y => if y.1 < best.1 then y else best) x)

/- Outcome of get_or_create_local_stored_data_block up to the point where the
   conversion executor would run: found is the early return of an existing
   stored block; converted carries the exact minimal triple that convert_sdb
   is invoked on; noRealization is the raise of the no-converter error for
   the target format and the listed existing blocks, reached before any new
   StoredDataBlock row is created. -/
inductive RealizeResult where
  | found (sdb : StoredDataBlockRec)
  | converted (cost : Nat) (path : ConversionPath) (source : StoredDataBlockRec)
  | noRealization (target : DataFormat) (existing : List StoredDataBlockRec)
deriving DecidableEq, Repr

def get_or_create_local_stored_data_block (lookup : PathLookup)
    (ctx : ExecutionContext) (store : List StoredDataBlockRec)
    (data_block_id : String) (target_format : DataFormat) : RealizeResult :=
  let existing := visible_sdbs ctx store data_block_id
  let target : StorageFormat :=
    { storage_type := ctx.local_memory_storage.storage_type,
      data_format := target_format }
  match scan_sdbs lookup target existing [] with
  | ScanResult.exact sdb => RealizeResult.found sdb
  | ScanResult.completed candidates =>
    match min_by_cost candidates with
    | none => RealizeResult.noRealization target_format existing
    | some (cost, path, sdb) => RealizeResult.converted cost path sdb

/- The candidate list the loop accumulates, as a direct map over the visible
   blocks; used to state which triples compete in the cost comparison. -/
def conversion_candidates (lookup : PathLookup) (target : StorageFormat)
    (sdbs : List StoredDataBlockRec) :
    List (Nat × ConversionPath × StoredDataBlockRec) :=
  sdbs.filterMap (fun sdb =>
    match get_conversion_path_for_sdb lookup sdb target with
    | some p => some (p.total_cost, p, sdb)
    | none => none)

/- ------------------------------------------------------------------ -/
/- Identifier generation: src/snapflow/core/metadata/orm.py            -/
/- ------------------------------------------------------------------ -/

/- Identifiers are strings; they are embedded as lists of character codes so
   that the lexicographic string order is the lexicographic list order. -/

/- Base ten digits of n, zero padded on the left to exactly w digits, most
   significant first (low digits are kept when n does not fit, which never
   happens at the call sites below). -/
def pad : Nat → Nat → List Nat
  | 0, _ => []
  | w + 1, n => pad w (n / 10) ++ [n % 10]

/- Unpadded base ten digits, by fuel so that the definition is structural. -/
def natDigitsF : Nat → Nat → List Nat
  | 0, _ => []
  | fuel + 1, n => if n < 10 then [n] else natDigitsF fuel (n / 10) ++ [n % 10]

def natDigits (n : Nat) : List Nat := natDigitsF (n + 1) n

/- Python format spec 05: zero pad to five digits when the decimal form is
   shorter, otherwise print the full decimal form. -/
def format05 (n : Nat) : List Nat :=
  if n < 100000 then pad 5 n else natDigits n

def digitsToCodes (l : List Nat) : List Nat := l.map (fun d => d + 48)

structure UtcSecond where
  yy : Nat
  mm : Nat
  dd : Nat
  hh : Nat
  mi : Nat
  ss : Nat
deriving DecidableEq, Repr

/- strftime writes each of the six fields as exactly two digits, so every
   field of a real timestamp is below one hundred. -/
def UtcSecond.valid (t : UtcSecond) : Bool :=
  t.yy < 100 && t.mm < 100 && t.dd < 100 && t.hh < 100 && t.mi < 100 && t.ss < 100

/- The twelve character codes of strftime with format yymmddHHMMSS. -/
def strftime12 (t : UtcSecond) : List Nat :=
  digitsToCodes (pad 2 t.yy ++ (pad 2 t.mm ++ (pad 2 t.dd ++
    (pad 2 t.hh ++ (pad 2 t.mi ++ pad 2 t.ss)))))

def UtcSecond.earlier (a b : UtcSecond) : Prop :=
  a.yy < b.yy ∨ (a.yy = b.yy ∧ (a.mm < b.mm ∨ (a.mm = b.mm ∧
    (a.dd < b.dd ∨ (a.dd = b.dd ∧ (a.hh < b.hh ∨ (a.hh = b.hh ∧
      (a.mi < b.mi ∨ (a.mi = b.mi ∧ a.ss < b.ss)))))))))

instance (a b : UtcSecond) : Decidable (UtcSecond.earlier a b) := by
  unfold UtcSecond.earlier; infer_instance

/- The module globals id_counter and last_second. -/
structure GenState where
  id_counter : Nat
  last_second : List Nat
deriving DecidableEq, Repr

/- timestamp_rand_key: reset the counter when the second changed, increment,
   and emit timestamp, zero padded counter, underscore (code 95) and the
   random suffix. The three character random suffix produced by rand_str is
   passed in, since the embedding does not draw randomness. -/
def timestamp_rand_key (t : UtcSecond) (suffix : List Nat) (st : GenState) :
    List Nat × GenState :=
  let curr_second := strftime12 t
  let counter0 := if st.last_second = curr_second then st.id_counter else 0
  let id_counter := counter0 + 1
  (curr_second ++ (digitsToCodes (format05 id_counter) ++ 95 :: suffix),
   { id_counter := id_counter, last_second := curr_second })

/- One identifier per provided suffix, generated in order within the clock
   second t, threading the module state. -/
def genIds (t : UtcSecond) : List (List Nat) → GenState → List (List Nat)
  | [], _ => []
  | s :: rest, st =>
    let r := timestamp_rand_key t s st
    r.1 :: genIds t rest r.2

/- The identifier produced when the per second counter is k. -/
def idAt (t : UtcSecond) (k : Nat) (suffix : List Nat) : List Nat :=
  strftime12 t ++ (digitsToCodes (format05 k) ++ 95 :: suffix)

/- Closed form for a run of calls whose state already carries counter c in
   second t. -/
def expectedIds (t : UtcSecond) : Nat → List (List Nat) → List (List Nat)
  | _, [] => []
  | c, s :: rest => idAt t (c + 1) s :: expectedIds t (c + 1) rest

/- Strict lexicographic order on code lists, matching string comparison. -/
def lexLt : List Nat → List Nat → Bool
  | [], [] => false
  | [], _ :: _ => true
  | _ :: _, [] => false
  | a :: l1, b :: l2 => if a < b then true else if b < a then false else lexLt l1 l2

/- Drop the random suffix component: everything from the underscore on. -/
def dropSuffix (l : List Nat) : List Nat := l.takeWhile (fun c => c != 95)

/- Numeric value of a digit list, used to invert format05. -/
def valueOf (l : List Nat) : Nat := l.foldl (fun acc d => acc * 10 + d) 0

/- ------------------------------------------------------------------ -/
/- Concrete fixtures used by witnesses and counterexamples             -/
/- ------------------------------------------------------------------ -/

def infEx2 : ObjectSchema := ⟨"inferred_missing", [⟨"id", "Integer"⟩]⟩

def nomEx2 : ObjectSchema :=
  ⟨"nominal_missing", [⟨"id", "Integer"⟩, ⟨"name", "Unicode(32)"⟩]⟩

def infEx6 : ObjectSchema :=
  ⟨"inferred_strict", [⟨"id", "Integer"⟩, ⟨"name", "Unicode(64)"⟩]⟩

def nomEx6 : ObjectSchema :=
  ⟨"nominal_strict", [⟨"id", "Integer"⟩, ⟨"name", "Unicode(32)"⟩]⟩

def infEx7 : ObjectSchema :=
  ⟨"inferred_subset",
   [⟨"id", "Integer"⟩, ⟨"name", "Unicode(64)"⟩, ⟨"extra", "Text"⟩]⟩

def nomEx7 : ObjectSchema :=
  ⟨"nominal_subset", [⟨"id", "BigInteger"⟩, ⟨"name", "Unicode(32)"⟩]⟩

def rowEx : DataBlockRow := ⟨"blk1", some "s1", some "s1", some 10, false⟩

def mutEx : DataBlockRow → DataBlockRow :=
  fun r => { r with record_count := some 99 }

def memStorage : Storage := ⟨"memory:proc1", StorageType.dictMemory⟩

def dbStorage : Storage := ⟨"postgres://local/db", StorageType.relationalDatabase⟩

def ctxEx : ExecutionContext := ⟨memStorage, [dbStorage]⟩

def ctxC1 : ExecutionContext := ⟨memStorage, []⟩

def sdbForeignDurable : StoredDataBlockRec :=
  ⟨"sdb1", "db1", "postgres://other-host/db", DataFormat.databaseTableRef⟩

def sdbForeignMemory : StoredDataBlockRec :=
  ⟨"sdb2", "db1", "memory:proc2", DataFormat.recordsList⟩

def sdbA : StoredDataBlockRec :=
  ⟨"sdbA", "db2", "postgres://local/db", DataFormat.databaseTableRef⟩

def sdbB : StoredDataBlockRec :=
  ⟨"sdbB", "db2", "memory:proc1", DataFormat.recordsList⟩

def sdbT : StoredDataBlockRec :=
  ⟨"sdbT", "db3", "memory:proc1", DataFormat.dataFrame⟩

def pathA : ConversionPath :=
  ⟨[⟨⟨StorageType.relationalDatabase, DataFormat.databaseTableRef⟩,
     ⟨StorageType.dictMemory, DataFormat.dataFrame⟩, 5⟩]⟩

def pathB : ConversionPath :=
  ⟨[⟨⟨StorageType.dictMemory, DataFormat.recordsList⟩,
     ⟨StorageType.dictMemory, DataFormat.dataFrame⟩, 2⟩]⟩

def lookupEx : PathLookup := fun s t =>
  if t = ⟨StorageType.dictMemory, DataFormat.dataFrame⟩ then
    if s = ⟨StorageType.relationalDatabase, DataFormat.databaseTableRef⟩ then
      some pathA
    else if s = ⟨StorageType.dictMemory, DataFormat.recordsList⟩ then
      some pathB
    else none
  else none

def lookupNone : PathLookup := fun _ _ => none

def tEx : UtcSecond := ⟨26, 10, 12, 8, 30, 0⟩

def tEx2 : UtcSecond := ⟨26, 10, 12, 8, 30, 1⟩

def tC : UtcSecond := ⟨20, 1, 1, 0, 0, 0⟩

def stEx : GenState := ⟨0, []⟩

def sufsEx : List (List Nat) := [[97, 97, 97], [98, 98, 98]]

/- ------------------------------------------------------------------ -/
/- Helper lemmas: schema casting                                       -/
/- ------------------------------------------------------------------ -/

theorem get_field_some_of_mem (s : ObjectSchema) (n : String)
    (h : n ∈ field_names s) :
    ∃ f, get_field s n = some f ∧ f ∈ s.fields ∧ f.name = n := by
  unfold get_field
  cases hf : s.fields.find? (fun f => f.name == n) with
  | none =>
    exfalso
    obtain ⟨f, hfmem, hfname⟩ := List.mem_map.mp h
    have hnone := List.find?_eq_none.mp hf f hfmem
    simp [hfname] at hnone
  | some f =>
    refine ⟨f, rfl, List.mem_of_find?_eq_some hf, ?_⟩
    have hp := List.find?_some hf
    simpa using hp

/- ------------------------------------------------------------------ -/
/- Claim theorems: schema casting                                      -/
/- ------------------------------------------------------------------ -/

/-- C2: whenever the nominal schema has at least one field name that the
inferred schema lacks, cast_to_realized_schema fails with SchemaTypeError at
every cast level (NONE, SOFT and HARD alike); the error payload lists the
inferred and the nominal columns, the latter naming every missing field, and
the final fallback returning the inferred schema is never reached on this
branch. -/
theorem C2_missing_fields_always_error (inf nom : ObjectSchema)
    (lvl : CastToSchemaLevel)
    (h : ∃ n ∈ field_names nom, n ∉ field_names inf) :
    cast_to_realized_schema inf nom lvl =
      Except.error (SchemaTypeError.missing_columns
        (field_names inf) (field_names nom) lvl) := by
  obtain ⟨n, hn, hnot⟩ := h
  have hsub : has_subset_fields nom inf = false := by
    cases hb : has_subset_fields nom inf with
    | false => rfl
    | true =>
      exfalso
      exact hnot (List.elem_iff.mp (List.all_eq_true.mp hb n hn))
  have hmatch : is_strict_schema_match inf nom = false := by
    cases hb : is_strict_schema_match inf nom with
    | false => rfl
    | true =>
      exfalso
      unfold is_strict_schema_match same_field_name_set at hb
      have h1 := (Bool.and_eq_true _ _).mp hb |>.1
      have h2 := (Bool.and_eq_true _ _).mp h1 |>.2
      exact hnot (List.elem_iff.mp (List.all_eq_true.mp h2 n hn))
  simp [cast_to_realized_schema, hmatch, hsub, CastToSchemaLevel.value]

theorem C2_witness :
    (∃ n ∈ field_names nomEx2, n ∉ field_names infEx2) ∧
    cast_to_realized_schema infEx2 nomEx2 CastToSchemaLevel.NONE =
      Except.error (SchemaTypeError.missing_columns
        (field_names infEx2) (field_names nomEx2) CastToSchemaLevel.NONE) :=
  ⟨by decide,
   C2_missing_fields_always_error infEx2 nomEx2 CastToSchemaLevel.NONE (by decide)⟩

/-- C6: when the inferred and nominal schemas carry exactly the same field
name set and every pair of same-named fields agrees on its type class after
stripping parametrization, cast_to_realized_schema returns the nominal schema
verbatim at every cast level. -/
theorem C6_strict_match_returns_nominal (inf nom : ObjectSchema)
    (lvl : CastToSchemaLevel)
    (h1 : ∀ n ∈ field_names inf, n ∈ field_names nom)
    (h2 : ∀ n ∈ field_names nom, n ∈ field_names inf)
    (h3 : ∀ f1 ∈ inf.fields, ∀ f2 ∈ nom.fields, f1.name = f2.name →
        is_same_fieldtype_class f1.field_type f2.field_type = true) :
    cast_to_realized_schema inf nom lvl = Except.ok nom := by
  have hmatch : is_strict_schema_match inf nom = true := by
    unfold is_strict_schema_match same_field_name_set
    rw [Bool.and_eq_true, Bool.and_eq_true]
    refine ⟨⟨?_, ?_⟩, ?_⟩
    · exact List.all_eq_true.mpr (fun n hn => List.elem_iff.mpr (h1 n hn))
    · exact List.all_eq_true.mpr (fun n hn => List.elem_iff.mpr (h2 n hn))
    · refine List.all_eq_true.mpr ?_
      intro f1 hf1
      have hmem : f1.name ∈ field_names nom :=
        h1 f1.name (List.mem_map.mpr ⟨f1, hf1, rfl⟩)
      obtain ⟨f2, hsome, hf2mem, hf2name⟩ := get_field_some_of_mem nom f1.name hmem
      rw [hsome]
      unfold is_strict_field_match
      rw [Bool.and_eq_true]
      exact ⟨h3 f1 hf1 f2 hf2mem hf2name.symm, by simp [hf2name]⟩
  simp [cast_to_realized_schema, hmatch]

theorem C6_witness :
    cast_to_realized_schema infEx6 nomEx6 CastToSchemaLevel.HARD =
      Except.ok nomEx6 :=
  C6_strict_match_returns_nominal infEx6 nomEx6 CastToSchemaLevel.HARD
    (by decide) (by decide) (by decide)

/-- C7: when the schemas are not a strict match but every nominal field name
occurs in the inferred schema, the cast returns, below HARD, the inferred
schema with each field shared with nominal replaced by the nominal field
definition and the extra inferred fields kept in place, and at HARD it
returns the nominal schema exactly. -/
theorem C7_subset_cast (inf nom : ObjectSchema)
    (h1 : is_strict_schema_match inf nom = false)
    (h2 : has_subset_fields nom inf = true) :
    (∀ lvl, lvl.value < CastToSchemaLevel.HARD.value →
      ∃ s, cast_to_realized_schema inf nom lvl = Except.ok s ∧
        s.schema_name = inf.schema_name ∧
        ∀ i : Nat, s.fields[i]? =
          (inf.fields[i]?).map (fun f => (get_field nom f.name).getD f)) ∧
    cast_to_realized_schema inf nom CastToSchemaLevel.HARD = Except.ok nom := by
  constructor
  · intro lvl hlvl
    refine ⟨update_matching_field_definitions inf nom, ?_, rfl, ?_⟩
    · simp [cast_to_realized_schema, h1, h2, hlvl]
    · intro i
      unfold update_matching_field_definitions
      simp only [List.getElem?_map]
      cases hf : inf.fields[i]? with
      | none => rfl
      | some f =>
        cases hg : get_field nom f.name <;> simp [hg]
  · simp [cast_to_realized_schema, h1, h2, CastToSchemaLevel.value]

theorem C7_witness :
    (is_strict_schema_match infEx7 nomEx7 = false ∧
     has_subset_fields nomEx7 infEx7 = true) ∧
    ((∀ lvl, lvl.value < CastToSchemaLevel.HARD.value →
      ∃ s, cast_to_realized_schema infEx7 nomEx7 lvl = Except.ok s ∧
        s.schema_name = infEx7.schema_name ∧
        ∀ i : Nat, s.fields[i]? =
          (infEx7.fields[i]?).map (fun f => (get_field nomEx7 f.name).getD f)) ∧
     cast_to_realized_schema infEx7 nomEx7 CastToSchemaLevel.HARD =
       Except.ok nomEx7) :=
  ⟨⟨by decide, by decide⟩, C7_subset_cast infEx7 nomEx7 (by decide) (by decide)⟩

/- ------------------------------------------------------------------ -/
/- Claim theorems: immutability                                        -/
/- ------------------------------------------------------------------ -/

/-- C3: submitting an update for a row id that is already persisted fails at
the persistence boundary with ImmutabilityViolation, and no submit, on any
store, ever returns a store differing from the one it was given: persisted
rows are never edited in place. -/
theorem C3_immutable_rows (store : List DataBlockRow) (row_id : String)
    (mutate : DataBlockRow → DataBlockRow)
    (h : ∃ r ∈ store, r.id = row_id) :
    submit_row_update store row_id mutate =
      Except.error (ImmutabilityViolation.attempted_update row_id) ∧
    ∀ (store2 : List DataBlockRow) (g : DataBlockRow → DataBlockRow) s2,
      submit_row_update store2 row_id g = Except.ok s2 → s2 = store2 := by
  constructor
  · have hany : store.any (fun r => r.id == row_id) = true := by
      obtain ⟨r, hr, hid⟩ := h
      exact List.any_eq_true.mpr ⟨r, hr, by simp [hid]⟩
    simp [submit_row_update, hany]
  · intro store2 g s2 hs
    unfold submit_row_update at hs
    split at hs
    · cases hs
    · injection hs with h2
      exact h2.symm

theorem C3_witness :
    (∃ r ∈ [rowEx], r.id = "blk1") ∧
    (submit_row_update [rowEx] "blk1" mutEx =
       Except.error (ImmutabilityViolation.attempted_update "blk1") ∧
     ∀ (store2 : List DataBlockRow) (g : DataBlockRow → DataBlockRow) s2,
       submit_row_update store2 "blk1" g = Except.ok s2 → s2 = store2) :=
  ⟨by decide, C3_immutable_rows [rowEx] "blk1" mutEx (by decide)⟩

/- ------------------------------------------------------------------ -/
/- Claim theorems: CSV null handling                                   -/
/- ------------------------------------------------------------------ -/

/-- C10: evaluation of the embedded is_nullish and read_csv. The empty cell
and every case variant of null and na are mapped to None, empty containers
and integer scalars are not nullish, but a cell spelled None (in any case)
is KEPT as its raw string: the probe is lowercased while the null-string
list contains the capitalized entry None, which therefore can never match.
This contradicts the claim that None cells map to None and shows the dead
list entry is a slip in the code. -/
theorem C10_nullish_evaluation :
    is_nullish (PyVal.vstr "None") = false ∧
    is_nullish (PyVal.vstr "NONE") = false ∧
    is_nullish (PyVal.vstr "none") = false ∧
    read_csv ["a"] [["None"]] = [[("a", PyVal.vstr "None")]] ∧
    is_nullish (PyVal.vstr "null") = true ∧
    is_nullish (PyVal.vstr "NULL") = true ∧
    is_nullish (PyVal.vstr "Na") = true ∧
    is_nullish (PyVal.vstr "") = true ∧
    read_csv ["a", "b"] [["x", ""], ["NULL", "7"]] =
      [[("a", PyVal.vstr "x"), ("b", PyVal.vnone)],
       [("a", PyVal.vnone), ("b", PyVal.vstr "7")]] ∧
    is_nullish (PyVal.vint 0) = false ∧
    is_nullish (PyVal.vlist []) = false := by decide

/- ------------------------------------------------------------------ -/
/- Helper lemmas: realization machinery                                -/
/- ------------------------------------------------------------------ -/

/- The foldl underlying min_by_cost keeps the first element of minimal cost:
   the chosen element splits the list so that everything before it is
   strictly more expensive and everything after it at least as expensive. -/
theorem foldl_min_split (xs : List (Nat × ConversionPath × StoredDataBlockRec))
    (x : Nat × ConversionPath × StoredDataBlockRec) :
    ∃ l1 l2,
      x :: xs = l1 ++ (xs.foldl (fun best y => if y.1 < best.1 then y else best) x) :: l2 ∧
      (∀ y ∈ l1, (xs.foldl (fun best y => if y.1 < best.1 then y else best) x).1 < y.1) ∧
      (∀ y ∈ l2, (xs.foldl (fun best y => if y.1 < best.1 then y else best) x).1 ≤ y.1) := by
  induction xs generalizing x with
  | nil => exact ⟨[], [], rfl, by simp, by simp⟩
  | cons y ys ih =>
    have hstep : (y :: ys).foldl (fun best z => if z.1 < best.1 then z else best) x =
        ys.foldl (fun best z => if z.1 < best.1 then z else best)
          (if y.1 < x.1 then y else x) := by
      simp [List.foldl_cons]
    by_cases hy : y.1 < x.1
    · rw [hstep, if_pos hy]
      obtain ⟨l1, l2, heq, hl1, hl2⟩ := ih y
      have hrle : (ys.foldl (fun best z => if z.1 < best.1 then z else best) y).1 ≤ y.1 := by
        cases l1 with
        | nil =>
          simp only [List.nil_append] at heq
          injection heq with h1 h2
          exact le_of_eq (congrArg Prod.fst h1.symm)
        | cons a l1t =>
          rw [List.cons_append] at heq
          injection heq with h1 h2
          exact le_of_lt (h1 ▸ hl1 a (List.mem_cons_self a l1t))
      refine ⟨x :: l1, l2, ?_, ?_, hl2⟩
      · rw [List.cons_append, ← heq]
      · intro z hz
        rcases List.mem_cons.mp hz with hzx | hzl
        · subst hzx
          exact lt_of_le_of_lt hrle hy
        · exact hl1 z hzl
    · rw [hstep, if_neg hy]
      have hxy : x.1 ≤ y.1 := Nat.le_of_not_lt hy
      obtain ⟨l1, l2, heq, hl1, hl2⟩ := ih x
      cases l1 with
      | nil =>
        simp only [List.nil_append] at heq
        injection heq with h1 h2
        refine ⟨[], y :: ys, ?_, by simp, ?_⟩
        · rw [List.nil_append, ← h1]
        · intro z hz
          rcases List.mem_cons.mp hz with hzy | hzl
          · subst hzy
            exact le_trans (le_of_eq (congrArg Prod.fst h1.symm)) hxy
          · exact hl2 z (h2 ▸ hzl)
      | cons a l1t =>
        rw [List.cons_append] at heq
        injection heq with h1 h2
        have hrx : (ys.foldl (fun best z => if z.1 < best.1 then z else best) x).1 < x.1 :=
          h1 ▸ hl1 a (List.mem_cons_self a l1t)
        refine ⟨x :: y :: l1t, l2, ?_, ?_, hl2⟩
        · rw [List.cons_append, List.cons_append, ← h2]
        · intro z hz
          rcases List.mem_cons.mp hz with hzx | hz2
          · subst hzx
            exact hrx
          · rcases List.mem_cons.mp hz2 with hzy | hzl
            · subst hzy
              exact lt_of_lt_of_le hrx hxy
            · exact hl1 z (List.mem_cons_of_mem a hzl)

theorem min_by_cost_split (l : List (Nat × ConversionPath × StoredDataBlockRec))
    (x : Nat × ConversionPath × StoredDataBlockRec) (h : min_by_cost l = some x) :
    ∃ l1 l2, l = l1 ++ x :: l2 ∧ (∀ y ∈ l1, x.1 < y.1) ∧ (∀ y ∈ l2, x.1 ≤ y.1) := by
  cases l with
  | nil => cases h
  | cons a as =>
    have hx : as.foldl (fun best y => if y.1 < best.1 then y else best) a = x := by
      simpa [min_by_cost] using h
    obtain ⟨l1, l2, heq, hl1, hl2⟩ := foldl_min_split as a
    exact ⟨l1, l2, by rw [← hx]; exact heq, by rw [← hx]; exact hl1, by rw [← hx]; exact hl2⟩

/- When no visible block already carries the target storage format, the scan
   completes with exactly the accumulated candidate triples. -/
theorem scan_sdbs_no_exact (lookup : PathLookup) (target : StorageFormat)
    (sdbs : List StoredDataBlockRec)
    (acc : List (Nat × ConversionPath × StoredDataBlockRec))
    (h : ∀ s ∈ sdbs, get_storage_format s ≠ target) :
    scan_sdbs lookup target sdbs acc =
      ScanResult.completed (acc ++ conversion_candidates lookup target sdbs) := by
  induction sdbs generalizing acc with
  | nil => simp [scan_sdbs, conversion_candidates]
  | cons sdb rest ih =>
    have hne : get_storage_format sdb ≠ target := h sdb (List.mem_cons_self sdb rest)
    have hrest : ∀ s ∈ rest, get_storage_format s ≠ target :=
      fun s hs => h s (List.mem_cons_of_mem sdb hs)
    cases hp : get_conversion_path_for_sdb lookup sdb target with
    | none =>
      rw [show scan_sdbs lookup target (sdb :: rest) acc =
            scan_sdbs lookup target rest acc by simp [scan_sdbs, hne, hp]]
      rw [ih acc hrest]
      simp [conversion_candidates, List.filterMap_cons, hp]
    | some p =>
      rw [show scan_sdbs lookup target (sdb :: rest) acc =
            scan_sdbs lookup target rest (acc ++ [(p.total_cost, p, sdb)]) by
          simp [scan_sdbs, hne, hp]]
      rw [ih (acc ++ [(p.total_cost, p, sdb)]) hrest]
      simp [conversion_candidates, List.filterMap_cons, hp]

/- When some visible block already carries the target storage format, the
   scan stops at the first one with no conversion work. -/
theorem scan_sdbs_exact (lookup : PathLookup) (target : StorageFormat)
    (sdbs : List StoredDataBlockRec)
    (acc : List (Nat × ConversionPath × StoredDataBlockRec))
    (h : ∃ s ∈ sdbs, get_storage_format s = target) :
    ∃ s, scan_sdbs lookup target sdbs acc = ScanResult.exact s ∧
      s ∈ sdbs ∧ get_storage_format s = target := by
  induction sdbs generalizing acc with
  | nil =>
    obtain ⟨s, hs, _⟩ := h
    cases hs
  | cons sdb rest ih =>
    by_cases hhead : get_storage_format sdb = target
    · exact ⟨sdb, by simp [scan_sdbs, hhead], List.mem_cons_self sdb rest, hhead⟩
    · have hrest : ∃ s ∈ rest, get_storage_format s = target := by
        obtain ⟨s, hs, hfmt⟩ := h
        rcases List.mem_cons.mp hs with hsx | hsl
        · exact absurd (hsx ▸ hfmt) hhead
        · exact ⟨s, hsl, hfmt⟩
      cases hp : get_conversion_path_for_sdb lookup sdb target with
      | none =>
        obtain ⟨s, hscan, hmem, hfmt⟩ := ih acc hrest
        exact ⟨s, by simpa [scan_sdbs, hhead, hp] using hscan,
          List.mem_cons_of_mem sdb hmem, hfmt⟩
      | some p =>
        obtain ⟨s, hscan, hmem, hfmt⟩ := ih (acc ++ [(p.total_cost, p, sdb)]) hrest
        exact ⟨s, by simpa [scan_sdbs, hhead, hp] using hscan,
          List.mem_cons_of_mem sdb hmem, hfmt⟩

theorem min_by_cost_eq_none (l : List (Nat × ConversionPath × StoredDataBlockRec)) :
    min_by_cost l = none ↔ l = [] := by
  cases l <;> simp [min_by_cost]

/- get_or_create with its lets unfolded; definitional. -/
theorem get_or_create_eq (lookup : PathLookup) (ctx : ExecutionContext)
    (store : List StoredDataBlockRec) (data_block_id : String)
    (target_format : DataFormat) :
    get_or_create_local_stored_data_block lookup ctx store data_block_id target_format =
      match scan_sdbs lookup
          (StorageFormat.mk ctx.local_memory_storage.storage_type target_format)
          (visible_sdbs ctx store data_block_id) [] with
      | ScanResult.exact sdb => RealizeResult.found sdb
      | ScanResult.completed candidates =>
        match min_by_cost candidates with
        | none => RealizeResult.noRealization target_format (visible_sdbs ctx store data_block_id)
        | some (cost, path, sdb) => RealizeResult.converted cost path sdb := rfl

/- ------------------------------------------------------------------ -/
/- Claim theorems: realization                                         -/
/- ------------------------------------------------------------------ -/

/-- C1: evaluation of the visibility filter at a concrete store. The claim
says a durable realization is visible only when its storage URL is among the
configured storages of the context. The code builds that second filter but
discards the returned query (the call result of filter is never assigned),
so a durable stored block whose URL is in no configured storage stays
visible and even wins the cost comparison, while the memory half of the rule
(a foreign memory realization is dropped) does hold. -/
theorem C1_dropped_storage_filter :
    visible_sdbs ctxC1 [sdbForeignDurable, sdbForeignMemory] "db1" = [sdbForeignDurable] ∧
    (ctxC1.all_storages.map (fun s => s.url)).contains sdbForeignDurable.storage_url = false ∧
    get_or_create_local_stored_data_block lookupEx ctxC1
      [sdbForeignDurable, sdbForeignMemory] "db1" DataFormat.dataFrame =
      RealizeResult.converted 5 pathA sdbForeignDurable := by decide

/-- C4: whenever no visible realization already has the target storage
format and at least one candidate conversion exists, the manager converts
exactly the candidate triple of minimal total cost, ties broken by discovery
order: the candidate list splits around the chosen triple with every earlier
candidate strictly more expensive and every later one at least as expensive. -/
theorem C4_lowest_cost_selected (lookup : PathLookup) (ctx : ExecutionContext)
    (store : List StoredDataBlockRec) (data_block_id : String)
    (target_format : DataFormat)
    (hnoexact : ∀ s ∈ visible_sdbs ctx store data_block_id,
        get_storage_format s ≠
          StorageFormat.mk ctx.local_memory_storage.storage_type target_format)
    (hne : conversion_candidates lookup
        (StorageFormat.mk ctx.local_memory_storage.storage_type target_format)
        (visible_sdbs ctx store data_block_id) ≠ []) :
    ∃ c p s l1 l2,
      get_or_create_local_stored_data_block lookup ctx store data_block_id target_format =
        RealizeResult.converted c p s ∧
      conversion_candidates lookup
        (StorageFormat.mk ctx.local_memory_storage.storage_type target_format)
        (visible_sdbs ctx store data_block_id) = l1 ++ (c, p, s) :: l2 ∧
      (∀ y ∈ l1, c < y.1) ∧ (∀ y ∈ l2, c ≤ y.1) := by
  have hscan := scan_sdbs_no_exact lookup
    (StorageFormat.mk ctx.local_memory_storage.storage_type target_format)
    (visible_sdbs ctx store data_block_id) [] hnoexact
  cases hmin : min_by_cost (conversion_candidates lookup
      (StorageFormat.mk ctx.local_memory_storage.storage_type target_format)
      (visible_sdbs ctx store data_block_id)) with
  | none => exact absurd ((min_by_cost_eq_none _).mp hmin) hne
  | some x =>
    obtain ⟨c, p, s⟩ := x
    obtain ⟨l1, l2, heq, hl1, hl2⟩ := min_by_cost_split _ _ hmin
    refine ⟨c, p, s, l1, l2, ?_, heq, hl1, hl2⟩
    rw [get_or_create_eq, hscan]
    simp only [List.nil_append]
    rw [hmin]

theorem C4_witness :
    ((∀ s ∈ visible_sdbs ctxEx [sdbA, sdbB] "db2",
        get_storage_format s ≠
          StorageFormat.mk ctxEx.local_memory_storage.storage_type DataFormat.dataFrame) ∧
     conversion_candidates lookupEx
        (StorageFormat.mk ctxEx.local_memory_storage.storage_type DataFormat.dataFrame)
        (visible_sdbs ctxEx [sdbA, sdbB] "db2") ≠ []) ∧
    (∃ c p s l1 l2,
      get_or_create_local_stored_data_block lookupEx ctxEx [sdbA, sdbB] "db2"
          DataFormat.dataFrame = RealizeResult.converted c p s ∧
      conversion_candidates lookupEx
        (StorageFormat.mk ctxEx.local_memory_storage.storage_type DataFormat.dataFrame)
        (visible_sdbs ctxEx [sdbA, sdbB] "db2") = l1 ++ (c, p, s) :: l2 ∧
      (∀ y ∈ l1, c < y.1) ∧ (∀ y ∈ l2, c ≤ y.1)) :=
  ⟨⟨by decide, by decide⟩,
   C4_lowest_cost_selected lookupEx ctxEx [sdbA, sdbB] "db2" DataFormat.dataFrame
     (by decide) (by decide)⟩

/-- C5: when no visible realization has the target storage format and the
candidate set is empty, the manager fails with the no-realization error, a
dedicated outcome carrying the target format and the visible blocks, raised
before the conversion executor could run or any new stored block record
could be created: the result is never a converted or found outcome. -/
theorem C5_no_realization_failure (lookup : PathLookup) (ctx : ExecutionContext)
    (store : List StoredDataBlockRec) (data_block_id : String)
    (target_format : DataFormat)
    (hnoexact : ∀ s ∈ visible_sdbs ctx store data_block_id,
        get_storage_format s ≠
          StorageFormat.mk ctx.local_memory_storage.storage_type target_format)
    (hempty : conversion_candidates lookup
        (StorageFormat.mk ctx.local_memory_storage.storage_type target_format)
        (visible_sdbs ctx store data_block_id) = []) :
    get_or_create_local_stored_data_block lookup ctx store data_block_id target_format =
      RealizeResult.noRealization target_format (visible_sdbs ctx store data_block_id) ∧
    (∀ c p s, get_or_create_local_stored_data_block lookup ctx store data_block_id
        target_format ≠ RealizeResult.converted c p s) ∧
    (∀ s, get_or_create_local_stored_data_block lookup ctx store data_block_id
        target_format ≠ RealizeResult.found s) := by
  have hscan := scan_sdbs_no_exact lookup
    (StorageFormat.mk ctx.local_memory_storage.storage_type target_format)
    (visible_sdbs ctx store data_block_id) [] hnoexact
  have hmain : get_or_create_local_stored_data_block lookup ctx store data_block_id
      target_format =
      RealizeResult.noRealization target_format (visible_sdbs ctx store data_block_id) := by
    rw [get_or_create_eq, hscan]
    simp only [List.nil_append, hempty]
    rfl
  refine ⟨hmain, ?_, ?_⟩
  · intro c p s
    rw [hmain]
    simp
  · intro s
    rw [hmain]
    simp

theorem C5_witness :
    ((∀ s ∈ visible_sdbs ctxEx [sdbA] "db2",
        get_storage_format s ≠
          StorageFormat.mk ctxEx.local_memory_storage.storage_type DataFormat.dataFrame) ∧
     conversion_candidates lookupNone
        (StorageFormat.mk ctxEx.local_memory_storage.storage_type DataFormat.dataFrame)
        (visible_sdbs ctxEx [sdbA] "db2") = []) ∧
    (get_or_create_local_stored_data_block lookupNone ctxEx [sdbA] "db2"
        DataFormat.dataFrame =
      RealizeResult.noRealization DataFormat.dataFrame (visible_sdbs ctxEx [sdbA] "db2") ∧
     (∀ c p s, get_or_create_local_stored_data_block lookupNone ctxEx [sdbA] "db2"
         DataFormat.dataFrame ≠ RealizeResult.converted c p s) ∧
     (∀ s, get_or_create_local_stored_data_block lookupNone ctxEx [sdbA] "db2"
         DataFormat.dataFrame ≠ RealizeResult.found s)) :=
  ⟨⟨by decide, by decide⟩,
   C5_no_realization_failure lookupNone ctxEx [sdbA] "db2" DataFormat.dataFrame
     (by decide) (by decide)⟩

/-- C8: a request already satisfied does no conversion work. A stored block
whose storage format equals the target gets the empty conversion path of
total cost zero without the converter registry being consulted (the result
is the same under every registry lookup); and when some visible realization
already carries the target storage format, the manager returns such an
existing stored block as a found outcome, invoking no converter. -/
theorem C8_identity_is_free (lookup lookup2 : PathLookup) (sdb : StoredDataBlockRec)
    (tf : StorageFormat) (ctx : ExecutionContext) (store : List StoredDataBlockRec)
    (data_block_id : String) (target_format : DataFormat)
    (h1 : get_storage_format sdb = tf)
    (h2 : ∃ s ∈ visible_sdbs ctx store data_block_id,
        get_storage_format s =
          StorageFormat.mk ctx.local_memory_storage.storage_type target_format) :
    (get_conversion_path_for_sdb lookup sdb tf = some (ConversionPath.mk []) ∧
     ConversionPath.total_cost (ConversionPath.mk []) = 0 ∧
     get_conversion_path_for_sdb lookup sdb tf =
       get_conversion_path_for_sdb lookup2 sdb tf) ∧
    (∃ s, get_or_create_local_stored_data_block lookup ctx store data_block_id
        target_format = RealizeResult.found s ∧
      s ∈ visible_sdbs ctx store data_block_id ∧
      get_storage_format s =
        StorageFormat.mk ctx.local_memory_storage.storage_type target_format) := by
  constructor
  · refine ⟨?_, rfl, ?_⟩
    · simp [get_conversion_path_for_sdb, h1]
    · simp [get_conversion_path_for_sdb, h1]
  · obtain ⟨s, hscan, hmem, hfmt⟩ := scan_sdbs_exact lookup
      (StorageFormat.mk ctx.local_memory_storage.storage_type target_format)
      (visible_sdbs ctx store data_block_id) [] h2
    refine ⟨s, ?_, hmem, hfmt⟩
    rw [get_or_create_eq, hscan]

theorem C8_witness :
    (get_storage_format sdbT =
       StorageFormat.mk StorageType.dictMemory DataFormat.dataFrame ∧
     ∃ s ∈ visible_sdbs ctxEx [sdbB, sdbT] "db3",
       get_storage_format s =
         StorageFormat.mk ctxEx.local_memory_storage.storage_type DataFormat.dataFrame) ∧
    ((get_conversion_path_for_sdb lookupEx sdbT
        (StorageFormat.mk StorageType.dictMemory DataFormat.dataFrame) =
          some (ConversionPath.mk []) ∧
      ConversionPath.total_cost (ConversionPath.mk []) = 0 ∧
      get_conversion_path_for_sdb lookupEx sdbT
        (StorageFormat.mk StorageType.dictMemory DataFormat.dataFrame) =
        get_conversion_path_for_sdb lookupNone sdbT
          (StorageFormat.mk StorageType.dictMemory DataFormat.dataFrame)) ∧
     (∃ s, get_or_create_local_stored_data_block lookupEx ctxEx [sdbB, sdbT] "db3"
         DataFormat.dataFrame = RealizeResult.found s ∧
       s ∈ visible_sdbs ctxEx [sdbB, sdbT] "db3" ∧
       get_storage_format s =
         StorageFormat.mk ctxEx.local_memory_storage.storage_type DataFormat.dataFrame)) :=
  ⟨⟨by decide, by decide⟩,
   C8_identity_is_free lookupEx lookupNone sdbT
     (StorageFormat.mk StorageType.dictMemory DataFormat.dataFrame)
     ctxEx [sdbB, sdbT] "db3" DataFormat.dataFrame (by decide) (by decide)⟩

/- ------------------------------------------------------------------ -/
/- Helper lemmas: lexicographic order and digit printing               -/
/- ------------------------------------------------------------------ -/

theorem lexLt_append_congr (p xs ys : List Nat) :
    lexLt (p ++ xs) (p ++ ys) = lexLt xs ys := by
  induction p with
  | nil => rfl
  | cons a p ih => simp [lexLt, lt_irrefl, ih]

theorem lexLt_append_of_lt (xs : List Nat) :
    ∀ (ys u v : List Nat), xs.length = ys.length → lexLt xs ys = true →
      lexLt (xs ++ u) (ys ++ v) = true := by
  induction xs with
  | nil =>
    intro ys u v hlen h
    cases ys with
    | nil => cases h
    | cons b t => cases hlen
  | cons a xs ih =>
    intro ys u v hlen h
    cases ys with
    | nil => cases hlen
    | cons b t =>
      by_cases hab : a < b
      · simp [lexLt, hab]
      · by_cases hba : b < a
        · simp [lexLt, hab, hba] at h
        · simp only [lexLt, if_neg hab, if_neg hba] at h
          simp only [List.cons_append, lexLt, if_neg hab, if_neg hba]
          exact ih t u v (by simpa using hlen) h

theorem pad_length (w : Nat) : ∀ n, (pad w n).length = w := by
  induction w with
  | zero => intro n; rfl
  | succ w ih => intro n; simp [pad, ih]

theorem pad_digits_lt (w : Nat) : ∀ n d, d ∈ pad w n → d < 10 := by
  induction w with
  | zero => intro n d h; cases h
  | succ w ih =>
    intro n d h
    rcases List.mem_append.mp h with h1 | h2
    · exact ih (n / 10) d h1
    · simp at h2
      omega

theorem pad_mono (w : Nat) : ∀ a b, a < b → b < 10 ^ w →
    lexLt (pad w a) (pad w b) = true := by
  induction w with
  | zero =>
    intro a b hab hb
    simp at hb
    omega
  | succ w ih =>
    intro a b hab hb
    have hdiv : a / 10 ≤ b / 10 := Nat.div_le_div_right (le_of_lt hab)
    by_cases hlt : a / 10 < b / 10
    · have hb10 : b / 10 < 10 ^ w := by
        have hpow : b < 10 ^ w * 10 := by
          rw [← pow_succ]
          exact hb
        exact (Nat.div_lt_iff_lt_mul (by norm_num)).mpr hpow
      simp only [pad]
      exact lexLt_append_of_lt _ _ _ _ (by rw [pad_length, pad_length]) (ih _ _ hlt hb10)
    · have heq : a / 10 = b / 10 := le_antisymm hdiv (Nat.le_of_not_lt hlt)
      have hmod : a % 10 < b % 10 := by
        have ha10 := Nat.div_add_mod a 10
        have hb10 := Nat.div_add_mod b 10
        omega
      simp only [pad, heq]
      rw [lexLt_append_congr]
      simp [lexLt, hmod]

theorem valueOf_append_digit (l : List Nat) (d : Nat) :
    valueOf (l ++ [d]) = valueOf l * 10 + d := by
  simp [valueOf, List.foldl_append]

theorem valueOf_pad (w : Nat) : ∀ n, n < 10 ^ w → valueOf (pad w n) = n := by
  induction w with
  | zero =>
    intro n hn
    simp at hn
    simp [pad, valueOf, hn]
  | succ w ih =>
    intro n hn
    have hdiv : n / 10 < 10 ^ w := by
      have hpow : n < 10 ^ w * 10 := by
        rw [← pow_succ]
        exact hn
      exact (Nat.div_lt_iff_lt_mul (by norm_num)).mpr hpow
    simp only [pad]
    rw [valueOf_append_digit, ih _ hdiv]
    have := Nat.div_add_mod n 10
    omega

theorem valueOf_natDigitsF (fuel : Nat) : ∀ n, n < fuel →
    valueOf (natDigitsF fuel n) = n := by
  induction fuel with
  | zero => intro n hn; omega
  | succ fuel ih =>
    intro n hn
    by_cases h10 : n < 10
    · simp [natDigitsF, h10, valueOf]
    · have hdivlt : n / 10 < n := Nat.div_lt_self (by omega) (by norm_num)
      simp only [natDigitsF, if_neg h10]
      rw [valueOf_append_digit, ih (n / 10) (by omega)]
      have := Nat.div_add_mod n 10
      omega

theorem valueOf_format05 (n : Nat) : valueOf (format05 n) = n := by
  unfold format05
  by_cases h : n < 100000
  · rw [if_pos h]
    exact valueOf_pad 5 n (by norm_num; omega)
  · rw [if_neg h]
    exact valueOf_natDigitsF (n + 1) n (Nat.lt_succ_self n)

theorem format05_inj (m n : Nat) (h : format05 m = format05 n) : m = n := by
  have hv := congrArg valueOf h
  rwa [valueOf_format05, valueOf_format05] at hv

theorem natDigitsF_digits_lt (fuel : Nat) : ∀ n d, d ∈ natDigitsF fuel n → d < 10 := by
  induction fuel with
  | zero => intro n d h; cases h
  | succ fuel ih =>
    intro n d h
    by_cases h10 : n < 10
    · simp [natDigitsF, h10] at h
      omega
    · simp only [natDigitsF, if_neg h10] at h
      rcases List.mem_append.mp h with h1 | h2
      · exact ih _ d h1
      · simp at h2
        omega

theorem format05_digits_lt (n d : Nat) (h : d ∈ format05 n) : d < 10 := by
  unfold format05 at h
  by_cases hn : n < 100000
  · rw [if_pos hn] at h
    exact pad_digits_lt 5 n d h
  · rw [if_neg hn] at h
    exact natDigitsF_digits_lt (n + 1) n d h

theorem digitsToCodes_lexLt (xs : List Nat) : ∀ ys,
    lexLt (digitsToCodes xs) (digitsToCodes ys) = lexLt xs ys := by
  induction xs with
  | nil => intro ys; cases ys <;> rfl
  | cons a xs ih =>
    intro ys
    cases ys with
    | nil => rfl
    | cons b t =>
      simp only [digitsToCodes, List.map_cons, lexLt]
      by_cases hab : a < b
      · simp [hab, Nat.add_lt_add_iff_right]
      · by_cases hba : b < a
        · simp [hab, hba, Nat.add_lt_add_iff_right]
        · have h1 : ¬ a + 48 < b + 48 := by omega
          have h2 : ¬ b + 48 < a + 48 := by omega
          simp only [if_neg hab, if_neg hba, if_neg h1, if_neg h2]
          exact ih t

theorem digitsToCodes_inj (xs ys : List Nat) (h : digitsToCodes xs = digitsToCodes ys) :
    xs = ys := by
  have hinj : Function.Injective (fun d : Nat => d + 48) := fun a b hab => by
    simpa using hab
  exact List.map_injective_iff.mpr hinj h

theorem codes_ne_95 (l : List Nat) (hl : ∀ d ∈ l, d < 10) :
    ∀ c ∈ digitsToCodes l, (c != 95) = true := by
  intro c hc
  obtain ⟨d, hd, hcd⟩ := List.mem_map.mp hc
  have := hl d hd
  simp only [← hcd]
  simp [bne_iff_ne]
  omega

theorem takeWhile_append_sep (p : Nat → Bool) (a : List Nat) :
    ∀ (c : Nat) (b : List Nat), (∀ x ∈ a, p x = true) → p c = false →
      (a ++ c :: b).takeWhile p = a := by
  induction a with
  | nil =>
    intro c b _ hc
    simp [List.takeWhile_cons, hc]
  | cons x xs ih =>
    intro c b hall hc
    have hx : p x = true := hall x (List.mem_cons_self x xs)
    simp only [List.cons_append, List.takeWhile_cons, hx, if_pos]
    rw [ih c b (fun y hy => hall y (List.mem_cons_of_mem x hy)) hc]

/- ------------------------------------------------------------------ -/
/- Helper lemmas: identifiers                                          -/
/- ------------------------------------------------------------------ -/

theorem ts_digits_lt (t : UtcSecond) :
    ∀ d ∈ (pad 2 t.yy ++ (pad 2 t.mm ++ (pad 2 t.dd ++
      (pad 2 t.hh ++ (pad 2 t.mi ++ pad 2 t.ss))))), d < 10 := by
  intro d hd
  rcases List.mem_append.mp hd with h | hd
  · exact pad_digits_lt 2 _ d h
  rcases List.mem_append.mp hd with h | hd
  · exact pad_digits_lt 2 _ d h
  rcases List.mem_append.mp hd with h | hd
  · exact pad_digits_lt 2 _ d h
  rcases List.mem_append.mp hd with h | hd
  · exact pad_digits_lt 2 _ d h
  rcases List.mem_append.mp hd with h | hd
  · exact pad_digits_lt 2 _ d h
  exact pad_digits_lt 2 _ d hd

theorem strftime12_length (t : UtcSecond) : (strftime12 t).length = 12 := by
  simp [strftime12, digitsToCodes, pad_length]

theorem dropSuffix_idAt (t : UtcSecond) (k : Nat) (suf : List Nat) :
    dropSuffix (idAt t k suf) = strftime12 t ++ digitsToCodes (format05 k) := by
  unfold dropSuffix idAt
  rw [← List.append_assoc]
  apply takeWhile_append_sep
  · intro x hx
    rcases List.mem_append.mp hx with h1 | h2
    · unfold strftime12 at h1
      exact codes_ne_95 _ (ts_digits_lt t) x h1
    · exact codes_ne_95 _ (fun d hd => format05_digits_lt k d hd) x h2
  · rfl

theorem pad2_block_lt (x y : Nat) (h : x < y) (hy : y < 100) (r1 r2 : List Nat) :
    lexLt (pad 2 x ++ r1) (pad 2 y ++ r2) = true := by
  apply lexLt_append_of_lt _ _ _ _ (by rw [pad_length, pad_length])
  apply pad_mono _ _ _ h
  have h100 : (10 : Nat) ^ 2 = 100 := by norm_num
  rw [h100]
  exact hy

theorem strftime12_mono (a b : UtcSecond) (hav : a.valid = true) (hbv : b.valid = true)
    (h : UtcSecond.earlier a b) : lexLt (strftime12 a) (strftime12 b) = true := by
  simp only [UtcSecond.valid, Bool.and_eq_true, decide_eq_true_eq] at hav hbv
  obtain ⟨⟨⟨⟨⟨ha1, ha2⟩, ha3⟩, ha4⟩, ha5⟩, ha6⟩ := hav
  obtain ⟨⟨⟨⟨⟨hb1, hb2⟩, hb3⟩, hb4⟩, hb5⟩, hb6⟩ := hbv
  unfold strftime12
  rw [digitsToCodes_lexLt]
  rcases h with h1 | ⟨e1, h2 | ⟨e2, h3 | ⟨e3, h4 | ⟨e4, h5 | ⟨e5, h6⟩⟩⟩⟩⟩
  · exact pad2_block_lt _ _ h1 hb1 _ _
  · rw [e1, lexLt_append_congr]
    exact pad2_block_lt _ _ h2 hb2 _ _
  · rw [e1, e2, lexLt_append_congr, lexLt_append_congr]
    exact pad2_block_lt _ _ h3 hb3 _ _
  · rw [e1, e2, e3, lexLt_append_congr, lexLt_append_congr, lexLt_append_congr]
    exact pad2_block_lt _ _ h4 hb4 _ _
  · rw [e1, e2, e3, e4, lexLt_append_congr, lexLt_append_congr, lexLt_append_congr,
      lexLt_append_congr]
    exact pad2_block_lt _ _ h5 hb5 _ _
  · rw [e1, e2, e3, e4, e5, lexLt_append_congr, lexLt_append_congr, lexLt_append_congr,
      lexLt_append_congr, lexLt_append_congr]
    apply pad_mono _ _ _ h6
    have h100 : (10 : Nat) ^ 2 = 100 := by norm_num
    rw [h100]
    exact hb6

theorem idAt_cross_lt (a b : UtcSecond) (hav : a.valid = true) (hbv : b.valid = true)
    (h : UtcSecond.earlier a b) (k1 k2 : Nat) (s1 s2 : List Nat) :
    lexLt (idAt a k1 s1) (idAt b k2 s2) = true := by
  unfold idAt
  exact lexLt_append_of_lt _ _ _ _
    (by rw [strftime12_length, strftime12_length])
    (strftime12_mono a b hav hbv h)

theorem idCore_mono (t : UtcSecond) (k1 k2 : Nat) (h : k1 < k2) (h2 : k2 ≤ 99999) :
    lexLt (strftime12 t ++ digitsToCodes (format05 k1))
      (strftime12 t ++ digitsToCodes (format05 k2)) = true := by
  rw [lexLt_append_congr, digitsToCodes_lexLt]
  have e1 : format05 k1 = pad 5 k1 := if_pos (by omega)
  have e2 : format05 k2 = pad 5 k2 := if_pos (by omega)
  rw [e1, e2]
  apply pad_mono _ _ _ h
  have h100k : (10 : Nat) ^ 5 = 100000 := by norm_num
  rw [h100k]
  omega

theorem idCore_ne (t : UtcSecond) (k1 k2 : Nat) (h : k1 ≠ k2) :
    strftime12 t ++ digitsToCodes (format05 k1) ≠
      strftime12 t ++ digitsToCodes (format05 k2) := by
  intro he
  exact h (format05_inj _ _ (digitsToCodes_inj _ _ (List.append_cancel_left he)))

theorem genIds_eq_expected (t : UtcSecond) :
    ∀ (sufs : List (List Nat)) (c : Nat),
      genIds t sufs ⟨c, strftime12 t⟩ = expectedIds t c sufs := by
  intro sufs
  induction sufs with
  | nil => intro c; rfl
  | cons s rest ih =>
    intro c
    simp only [genIds, timestamp_rand_key, expectedIds, idAt, eq_self_iff_true, if_true]
    rw [ih]

theorem genIds_fresh (t : UtcSecond) (sufs : List (List Nat)) (st : GenState)
    (h : st.last_second ≠ strftime12 t) :
    genIds t sufs st = expectedIds t 0 sufs := by
  cases sufs with
  | nil => rfl
  | cons s rest =>
    simp only [genIds, timestamp_rand_key, if_neg h, expectedIds, idAt]
    rw [genIds_eq_expected t rest]

theorem expectedIds_length (t : UtcSecond) :
    ∀ (sufs : List (List Nat)) (c : Nat),
      (expectedIds t c sufs).length = sufs.length := by
  intro sufs
  induction sufs with
  | nil => intro c; rfl
  | cons s rest ih => intro c; simp [expectedIds, ih]

theorem mem_expectedIds (t : UtcSecond) :
    ∀ (sufs : List (List Nat)) (c : Nat) (x : List Nat),
      x ∈ expectedIds t c sufs →
      ∃ k s, c < k ∧ k ≤ c + sufs.length ∧ x = idAt t k s := by
  intro sufs
  induction sufs with
  | nil => intro c x h; cases h
  | cons s rest ih =>
    intro c x h
    rcases List.mem_cons.mp h with hx | hx
    · exact ⟨c + 1, s, Nat.lt_succ_self c, by simp, hx⟩
    · obtain ⟨k, s', hk1, hk2, hx'⟩ := ih (c + 1) x hx
      exact ⟨k, s', by omega, by simp only [List.length_cons]; omega, hx'⟩

theorem expectedIds_append (t : UtcSecond) :
    ∀ (s1 s2 : List (List Nat)) (c : Nat),
      expectedIds t c (s1 ++ s2) =
        expectedIds t c s1 ++ expectedIds t (c + s1.length) s2 := by
  intro s1
  induction s1 with
  | nil => intro s2 c; simp [expectedIds]
  | cons s rest ih =>
    intro s2 c
    have hcons : (s :: rest) ++ s2 = s :: (rest ++ s2) := rfl
    rw [hcons]
    simp only [expectedIds, List.length_cons, List.cons_append]
    rw [ih s2 (c + 1)]
    have harith : c + 1 + rest.length = c + (rest.length + 1) := by omega
    rw [harith]

theorem expectedIds_pairwise_lt (t : UtcSecond) :
    ∀ (sufs : List (List Nat)) (c : Nat), c + sufs.length ≤ 99999 →
      (expectedIds t c sufs).Pairwise
        (fun a b => lexLt (dropSuffix a) (dropSuffix b) = true) := by
  intro sufs
  induction sufs with
  | nil => intro c _; exact List.Pairwise.nil
  | cons s rest ih =>
    intro c hc
    simp only [List.length_cons] at hc
    refine List.pairwise_cons.mpr ⟨?_, ih (c + 1) (by omega)⟩
    intro b hb
    obtain ⟨k, s', hk1, hk2, hb'⟩ := mem_expectedIds t rest (c + 1) b hb
    subst hb'
    rw [dropSuffix_idAt, dropSuffix_idAt]
    exact idCore_mono t (c + 1) k hk1 (by omega)

theorem expectedIds_pairwise_ne (t : UtcSecond) :
    ∀ (sufs : List (List Nat)) (c : Nat),
      (expectedIds t c sufs).Pairwise
        (fun a b => dropSuffix a ≠ dropSuffix b) := by
  intro sufs
  induction sufs with
  | nil => intro c; exact List.Pairwise.nil
  | cons s rest ih =>
    intro c
    refine List.pairwise_cons.mpr ⟨?_, ih (c + 1)⟩
    intro b hb
    obtain ⟨k, s', hk1, hk2, hb'⟩ := mem_expectedIds t rest (c + 1) b hb
    subst hb'
    rw [dropSuffix_idAt, dropSuffix_idAt]
    exact idCore_ne t (c + 1) k (by omega)

/- ------------------------------------------------------------------ -/
/- Claim theorems: identifier generation                               -/
/- ------------------------------------------------------------------ -/

/-- C9 (amended): starting fresh in a clock second, N calls of the
identifier generator produce N identifiers; for every N up to 99999 they are
lexicographically strictly increasing once the random suffix component is
dropped; for every N they are pairwise distinct, both after dropping the
suffix and as full identifiers; and every identifier generated in an earlier
clock second is lexicographically smaller than every identifier generated in
a later second, by the timestamp prefix. The 99999 bound is forced by the
five digit zero padding of the per second counter: at the 100000th call the
counter field widens and the lexicographic order breaks. -/
theorem C9_monotonic_ids (t t2 : UtcSecond) (sufs sufs2 : List (List Nat))
    (st st2 : GenState)
    (hfresh : st.last_second ≠ strftime12 t)
    (hfresh2 : st2.last_second ≠ strftime12 t2)
    (hv : t.valid = true) (hv2 : t2.valid = true)
    (hearlier : UtcSecond.earlier t t2) :
    (genIds t sufs st).length = sufs.length ∧
    (sufs.length ≤ 99999 →
      (genIds t sufs st).Pairwise
        (fun a b => lexLt (dropSuffix a) (dropSuffix b) = true)) ∧
    (genIds t sufs st).Pairwise (fun a b => dropSuffix a ≠ dropSuffix b) ∧
    (genIds t sufs st).Pairwise (fun a b => a ≠ b) ∧
    (∀ a ∈ genIds t sufs st, ∀ b ∈ genIds t2 sufs2 st2, lexLt a b = true) := by
  rw [genIds_fresh t sufs st hfresh, genIds_fresh t2 sufs2 st2 hfresh2]
  refine ⟨expectedIds_length t sufs 0, ?_, ?_, ?_, ?_⟩
  · intro hN
    exact expectedIds_pairwise_lt t sufs 0 (by omega)
  · exact expectedIds_pairwise_ne t sufs 0
  · exact (expectedIds_pairwise_ne t sufs 0).imp
      (fun hne he => hne (congrArg dropSuffix he))
  · intro a ha b hb
    obtain ⟨k1, s1, _, _, rfl⟩ := mem_expectedIds t sufs 0 a ha
    obtain ⟨k2, s2, _, _, rfl⟩ := mem_expectedIds t2 sufs2 0 b hb
    exact idAt_cross_lt t t2 hv hv2 hearlier k1 k2 s1 s2

theorem C9_witness :
    (stEx.last_second ≠ strftime12 tEx ∧ stEx.last_second ≠ strftime12 tEx2 ∧
     tEx.valid = true ∧ tEx2.valid = true ∧ UtcSecond.earlier tEx tEx2) ∧
    ((genIds tEx sufsEx stEx).length = sufsEx.length ∧
     (sufsEx.length ≤ 99999 →
       (genIds tEx sufsEx stEx).Pairwise
         (fun a b => lexLt (dropSuffix a) (dropSuffix b) = true)) ∧
     (genIds tEx sufsEx stEx).Pairwise (fun a b => dropSuffix a ≠ dropSuffix b) ∧
     (genIds tEx sufsEx stEx).Pairwise (fun a b => a ≠ b) ∧
     (∀ a ∈ genIds tEx sufsEx stEx, ∀ b ∈ genIds tEx2 sufsEx stEx,
        lexLt a b = true)) :=
  ⟨⟨by decide, by decide, by decide, by decide, by decide⟩,
   C9_monotonic_ids tEx tEx2 sufsEx sufsEx stEx stEx (by decide) (by decide)
     (by decide) (by decide) (by decide)⟩

/-- C9 counterexample: the claim as stated quantifies over every N, but id
monotonicity fails at the 100000th call of a second: starting fresh, the run
of 100000 calls contains the identifiers with counters 99999 and 100000 in
adjacent positions, and the zero padded counter field of 100000 widens to
six digits, making the later identifier lexicographically SMALLER. -/
theorem C9_counterexample :
    ¬ (∀ (t : UtcSecond) (sufs : List (List Nat)) (st : GenState),
        st.last_second ≠ strftime12 t →
        (genIds t sufs st).Pairwise
          (fun a b => lexLt (dropSuffix a) (dropSuffix b) = true)) := by
  intro hclaim
  have hp := hclaim tC (List.replicate 100000 []) ⟨0, []⟩ (by decide)
  rw [genIds_fresh tC (List.replicate 100000 []) ⟨0, []⟩ (by decide)] at hp
  have hsplit : (100000 : Nat) = 99998 + 2 := by norm_num
  rw [hsplit, List.replicate_add, expectedIds_append] at hp
  simp only [List.length_replicate] at hp
  have h2 := (List.pairwise_append.mp hp).2.1
  have hrep : List.replicate 2 ([] : List Nat) = [[], []] := rfl
  rw [hrep] at h2
  simp only [expectedIds] at h2
  have h3 := (List.pairwise_cons.mp h2).1 (idAt tC (0 + 99998 + 1 + 1) [])
    (by simp)
  have e1 : (0 : Nat) + 99998 + 1 = 99999 := by norm_num
  have e2 : (0 : Nat) + 99998 + 1 + 1 = 100000 := by norm_num
  rw [e1, e2] at h3
  have hfalse : lexLt (dropSuffix (idAt tC 99999 []))
      (dropSuffix (idAt tC 100000 [])) = false := by decide
  rw [h3] at hfalse
  cases hfalse
